import Mathlib

/-!
Verification of the tile scheduling, augmentation and seam-blending engine of
waifu2x-tensorrt (src/tensorrt/img2img.cpp) against its natural-language
specification.  The C++ code is shallowly embedded: images live on the GPU as
dense matrices of normalized float pixels; we model a single channel of such a
matrix as a total function into ℚ (the arithmetic performed on tiles is exact
rational arithmetic in the model).  All geometry (rectangles, tile counts,
overlaps) is embedded over ℤ, matching the C++ `int` fields of `cv::Rect2i`,
`cv::Size2i` and `cv::Point2i`; the image sizes in play are far below 2^31 so
machine overflow is not modelled.
-/

namespace Img2Img

/-! ### Square tiles and the geometric primitives used by the augmentation codec

`cv::cuda::flip` with flip code 0 mirrors the rows (flip around the x-axis)
and with flip code 1 mirrors the columns.  `cv::cuda::rotate(src, dst, dstSize,
angle, xShift, yShift)` maps the source pixel (x, y) to
(x·cos θ + y·sin θ + xShift, −x·sin θ + y·cos θ + yShift); with the shift
arguments used in img2img.cpp (0, h−1) for 90°, (w−1, h−1) for 180° and
(w−1, 0) for 270° this is an exact pixel permutation whenever the destination
size equals the (square) source size, which is how every call site uses it:
`applyAugmentation` and `reverseAugmentation` are always invoked with
`dstSize` equal to the fixed square tile size of the loaded engine.
A tile is indexed as `t x y` with `x` the column and `y` the row. -/

def Sq (n : ℕ) := Fin n → Fin n → ℚ

/-- Index reversal `i ↦ n − 1 − i`, the 1-D building block of flips and
rotations. -/
def rev {n : ℕ} (i : Fin n) : Fin n := ⟨n - 1 - i.val, by omega⟩

/-- Flip with flip code 0 (mirror the rows; OpenCV calls this flipping around
the x-axis). -/
def flip0 {n : ℕ} (src : Sq n) : Sq n := fun x y => src x (rev y)

/-- Flip with flip code 1 (mirror the columns). -/
def flip1 {n : ℕ} (src : Sq n) : Sq n := fun x y => src (rev x) y

/-- Rotation by 90° as issued by img2img.cpp: `rotate(src, dst, size, 90, 0,
size.height − 1)`; destination pixel (x, y) comes from source pixel
(n − 1 − y, x). -/
def rot90 {n : ℕ} (src : Sq n) : Sq n := fun x y => src (rev y) x

/-- Rotation by 180°: `rotate(src, dst, size, 180, size.width − 1,
size.height − 1)`. -/
def rot180 {n : ℕ} (src : Sq n) : Sq n := fun x y => src (rev x) (rev y)

/-- Rotation by 270°: `rotate(src, dst, size, 270, size.width − 1, 0)`;
destination pixel (x, y) comes from source pixel (y, n − 1 − x). -/
def rot270 {n : ℕ} (src : Sq n) : Sq n := fun x y => src y (rev x)

/-- Forward augmentation dispatch of `trt::Img2Img::applyAugmentation`
(img2img.cpp lines 768–810).  Index 0 (and, through the `default:` label, any
index outside 0..7) copies the source; the two composite kinds flip first and
rotate by 90° second. -/
def applyAugmentation {n : ℕ} (src : Sq n) (augmentationIndex : ℕ) : Sq n :=
  match augmentationIndex with
  | 1 => flip0 src
  | 2 => flip1 src
  | 3 => rot90 src
  | 4 => rot180 src
  | 5 => rot270 src
  | 6 => rot90 (flip0 src)
  | 7 => rot90 (flip1 src)
  | _ => src

/-- Inverse augmentation dispatch of `trt::Img2Img::reverseAugmentation`
(img2img.cpp lines 812–854).  Rotations swap 90° and 270°; the two composite
kinds rotate by 270° first and then apply the same-axis flip. -/
def reverseAugmentation {n : ℕ} (src : Sq n) (augmentationIndex : ℕ) : Sq n :=
  match augmentationIndex with
  | 1 => flip0 src
  | 2 => flip1 src
  | 3 => rot270 src
  | 4 => rot180 src
  | 5 => rot90 src
  | 6 => flip0 (rot270 src)
  | 7 => flip1 (rot270 src)
  | _ => src

theorem rev_rev {n : ℕ} (i : Fin n) : rev (rev i) = i := by
  unfold rev
  apply Fin.ext
  simp only []
  omega

/-- C2: for every tile t and every augmentation kind k among the 8 kinds,
applying the forward augmentation and then the inverse augmentation for the
same kind returns the original tile exactly, pixel for pixel; in particular,
for the two composite kinds (flip then rotate-90 forward) the inverse is
rotate-270 followed by the same-axis flip. -/
theorem augmentation_roundtrip {n : ℕ} (t : Sq n) (k : ℕ) :
    reverseAugmentation (applyAugmentation t k) k = t := by
  match k with
  | 0 => rfl
  | 1 =>
    funext x y
    simp [applyAugmentation, reverseAugmentation, flip0, rev_rev]
  | 2 =>
    funext x y
    simp [applyAugmentation, reverseAugmentation, flip1, rev_rev]
  | 3 =>
    funext x y
    simp [applyAugmentation, reverseAugmentation, rot90, rot270, rev_rev]
  | 4 =>
    funext x y
    simp [applyAugmentation, reverseAugmentation, rot180, rev_rev]
  | 5 =>
    funext x y
    simp [applyAugmentation, reverseAugmentation, rot90, rot270, rev_rev]
  | 6 =>
    funext x y
    simp [applyAugmentation, reverseAugmentation, rot90, rot270, flip0, rev_rev]
  | 7 =>
    funext x y
    simp [applyAugmentation, reverseAugmentation, rot90, rot270, flip1, rev_rev]
  | (m + 8) => rfl

/-! ### TTA postprocessing of a single tile

When `renderConfig.tta` holds, each tile is postprocessed eight times, once
per augmentation index, in FIFO order (img2img.cpp lines 404–417).  The visit
updates the running accumulator `ttaOutputTile` and decides which buffer the
pointer `outputTile` designates for the subsequent blending and compositing
steps: `none` means the visit falls through the `continue` at line 420–421 and
composites nothing. -/

/-- One TTA postprocess visit (img2img.cpp lines 404–417).  `state` is the
running accumulator `ttaOutputTile`, `result` the raw executor output for this
augmentation index.  Returns the new accumulator and, when the tile is
composited this visit, the tile that `outputTile` points to.  At index 0 the
accumulator is cleared (`setTo(0)`) and the raw result added; at index 1..7
the inverse augmentation of the result is written to `tmpOutputMat` and added
to the accumulator; at index 7 the accumulator is additionally multiplied by
1/8 in place, and `outputTile` is then assigned `&tmpOutputMat` — the buffer
holding the inverse-augmented eighth result, not the accumulator. -/
def ttaVisit {n : ℕ} (state result : Sq n) (augmentationIndex : ℕ) :
    Sq n × Option (Sq n) :=
  if augmentationIndex = 0 then
    (fun x y => 0 + result x y, none)
  else
    let tmpOutputMat := reverseAugmentation result augmentationIndex
    let acc : Sq n := fun x y => tmpOutputMat x y + state x y
    if augmentationIndex = 7 then
      (fun x y => acc x y * (1 / 8), some tmpOutputMat)
    else
      (acc, none)

/-- The state of the TTA postprocessing of one tile after the visits for
augmentation indices 0..k, given the executor results `r 0`, …, `r 7` for the
eight augmentations of the tile. -/
def ttaRun {n : ℕ} (r : ℕ → Sq n) : ℕ → Sq n × Option (Sq n)
  | 0 => ttaVisit (fun _ _ => 0) (r 0) 0
  | k + 1 => ttaVisit (ttaRun r k).1 (r (k + 1)) (k + 1)

/-- The per-slot running sum the code accumulates: the raw result for index 0
plus the inverse-augmented results for indices 1..7. -/
def ttaRunningSum {n : ℕ} (r : ℕ → Sq n) : Sq n := fun x y =>
  (0 + r 0 x y) + ∑ k ∈ Finset.range 7, reverseAugmentation (r (k + 1)) (k + 1) x y

/-- Concrete executor results exhibiting the divergence: the eight results for
the single tile are the constant 1 × 1 tiles 0, 1, …, 7. -/
def ttaCounterexampleResults : ℕ → Sq 1 := fun k _ _ => (k : ℚ)

/-- C1: after the eighth visit the accumulator `ttaOutputTile` does hold the
running sum divided by 8, exactly as the spec describes — but the tile handed
on to blending and compositing is `tmpOutputMat`, i.e. the inverse-augmented
eighth result, because line 414 assigns `outputTile = &tmpOutputMat` instead
of `&ttaOutputTile`.  On the concrete results 0, 1, …, 7 the composited tile
is the constant 7 while the accumulated average is the constant 7/2, so the
composited tile differs from the running sum divided by 8: the code
contradicts the spec (and its own accumulate-then-divide arithmetic, whose
result is discarded). -/
theorem tta_composites_last_result_not_average :
    (∀ (n : ℕ) (r : ℕ → Sq n),
        (ttaRun r 7).1 = (fun x y => ttaRunningSum r x y * (1 / 8)) ∧
        (ttaRun r 7).2 = some (reverseAugmentation (r 7) 7)) ∧
      (ttaRun ttaCounterexampleResults 7).2 = some (fun _ _ => (7 : ℚ)) ∧
      (ttaRun ttaCounterexampleResults 7).1 = (fun _ _ => (7 / 2 : ℚ)) ∧
      (ttaRun ttaCounterexampleResults 7).2 ≠ some ((ttaRun ttaCounterexampleResults 7).1) := by
  have hrun : ∀ (n : ℕ) (r : ℕ → Sq n),
      (ttaRun r 7).1 = (fun x y => ttaRunningSum r x y * (1 / 8)) ∧
      (ttaRun r 7).2 = some (reverseAugmentation (r 7) 7) := by
    intro n r
    constructor
    · funext x y
      show (ttaRun r 7).1 x y = ttaRunningSum r x y * (1 / 8)
      simp [ttaRun, ttaVisit, ttaRunningSum, Finset.sum_range_succ]
      ring
    · simp [ttaRun, ttaVisit]
  refine ⟨hrun, ?_, ?_, ?_⟩
  · rw [(hrun 1 ttaCounterexampleResults).2]
    refine congrArg some ?_
    funext x y
    simp [reverseAugmentation, flip1, rot270, ttaCounterexampleResults]
  · rw [(hrun 1 ttaCounterexampleResults).1]
    funext x y
    simp [ttaRunningSum, Finset.sum_range_succ, reverseAugmentation, flip0, flip1,
      rot90, rot180, rot270, ttaCounterexampleResults]
    norm_num
  · rw [(hrun 1 ttaCounterexampleResults).1, (hrun 1 ttaCounterexampleResults).2]
    intro h
    have h2 := congrFun (congrFun (Option.some.injEq _ _ ▸ h) 0) 0
    simp [reverseAugmentation, flip1, rot270, ttaCounterexampleResults, ttaRunningSum,
      Finset.sum_range_succ, flip0, rot90, rot180] at h2
    norm_num at h2

/-! ### Blend weight masks

`trt::Img2Img::createTileWeights` (img2img.cpp lines 578–601) builds four
full-tile masks.  `weights[0]` (Top) starts as all ones and the loop sets row
i − 1 (0-indexed: rows 0..overlap.y − 1) to i / (overlap.y + 1) for
i = 1..overlap.y; `weights[3]` (Left) does the same on columns.
`weights[2]` (Bottom) is `weights[0]` flipped with flip code 0 (row mirror)
and `weights[1]` (Right) is `weights[3]` flipped with flip code 1 (column
mirror).  The masks are constant along the other axis, so we record the value
at column x, row y of a mask for a tile of the given width/height. -/

/-- Top mask value at column x, row y: rows 0..ov − 1 ramp as (y+1)/(ov+1),
all other rows are 1. -/
def weightTop (ov : ℕ) : ℕ → ℕ → ℚ := fun _ y =>
  if y < ov then ((y : ℚ) + 1) / ((ov : ℚ) + 1) else 1

/-- Left mask value at column x, row y: columns 0..ov − 1 ramp as
(x+1)/(ov+1), all other columns are 1. -/
def weightLeft (ov : ℕ) : ℕ → ℕ → ℚ := fun x _ =>
  if x < ov then ((x : ℚ) + 1) / ((ov : ℚ) + 1) else 1

/-- Bottom mask: the Top mask mirrored along the rows of a tile of height H
(cv::cuda::flip with flip code 0). -/
def weightBottom (ov H : ℕ) : ℕ → ℕ → ℚ := fun x y => weightTop ov x (H - 1 - y)

/-- Right mask: the Left mask mirrored along the columns of a tile of width W
(cv::cuda::flip with flip code 1). -/
def weightRight (ov W : ℕ) : ℕ → ℕ → ℚ := fun x y => weightLeft ov (W - 1 - x) y

/-- C3: partition of unity at seams.  Two horizontally adjacent tiles of width
W overlap in a band of width ov (the left tile's columns W − ov .. W − 1 are
the right tile's columns 0 .. ov − 1; the output tiles are laid out with
stride W − ov).  For every band column index j < ov and every row y, the
Right mask of the left tile at its local column W − ov + j plus the Left mask
of the right tile at its local column j equal exactly 1 — and symmetrically
for vertical adjacency with the Bottom and Top masks.  This holds for every
overlap width ov ≤ tile size, in particular for the widths derived from the
supported overlap fractions 0, 1/32, 1/16 and 1/8 (for ov = 0 the band is
empty and the statement is vacuous). -/
theorem seam_partition_of_unity (ov W H j x y : ℕ)
    (hj : j < ov) (hW : ov ≤ W) (hH : ov ≤ H) :
    weightRight ov W (W - ov + j) y + weightLeft ov j y = 1 ∧
    weightBottom ov H x (H - ov + j) + weightTop ov x j = 1 := by
  have hcol : W - 1 - (W - ov + j) = ov - (j + 1) := by omega
  have hrow : H - 1 - (H - ov + j) = ov - (j + 1) := by omega
  have hlt : ov - (j + 1) < ov := by omega
  have hcast : ((ov - (j + 1) : ℕ) : ℚ) = (ov : ℚ) - ((j : ℚ) + 1) := by
    rw [Nat.cast_sub hj]
    push_cast
    ring
  have hone : ((ov - (j + 1) : ℕ) : ℚ) + 1 + ((j : ℚ) + 1) = (ov : ℚ) + 1 := by
    rw [hcast]; ring
  have hden : ((ov : ℚ) + 1) ≠ 0 := by positivity
  constructor
  · unfold weightRight weightLeft
    rw [hcol, if_pos hlt, if_pos hj, div_add_div_same, div_eq_one_iff_eq hden]
    exact hone
  · unfold weightBottom weightTop
    rw [hrow, if_pos hlt, if_pos hj, div_add_div_same, div_eq_one_iff_eq hden]
    exact hone

/-- Witness for C3 at ov = 32, W = H = 512, j = 5 (the geometry of a 512-pixel
output tile with overlap fraction 1/16). -/
theorem seam_partition_of_unity_witness :
    (5 < 32 ∧ 32 ≤ 512) ∧
      weightRight 32 512 (512 - 32 + 5) 0 + weightLeft 32 5 0 = 1 := by
  refine ⟨⟨by norm_num, by norm_num⟩, ?_⟩
  exact (seam_partition_of_unity 32 512 512 5 0 0 (by norm_num) (by norm_num)
    (by norm_num)).1

/-! ### Tile geometry

`cv::Rect2i` with `int` fields. -/

structure Rect where
  x : ℤ
  y : ℤ
  width : ℤ
  height : ℤ
deriving DecidableEq

/-- `std::lround` on an exactly represented value: round half away from
zero.  All arguments in the code are products of small integers with the
overlap fractions {0, 1/32, 1/16, 1/8} or ratios of tile sizes, which `double`
represents exactly. -/
def lroundQ (q : ℚ) : ℤ := if 0 ≤ q then ⌊q + 1 / 2⌋ else -⌊-q + 1 / 2⌋

/-- `std::lround(std::ceil(static_cast<double>(a) / b))`, i.e. the exact
ceiling of the rational a / b, as computed twice in `calculateTiles`
(img2img.cpp lines 706–709).  For b = 0 the C++ expression divides by zero
(IEEE ±inf followed by an undefined `lround`); the model's rational division
then yields 0 — in neither case is any error signalled. -/
def ceilRatio (a b : ℤ) : ℤ := ⌈(a : ℚ) / (b : ℚ)⌉

/-- The geometry fields `trt::Img2Img::load` derives from the engine's fixed
tile shapes and the render configuration (img2img.cpp lines 279–307). -/
structure TileGeom where
  inputTileSize : ℤ × ℤ
  scaledInputTileSize : ℤ × ℤ
  inputOverlap : ℤ × ℤ
  outputTileSize : ℤ × ℤ
  scaledOutputOverlap : ℤ × ℤ
deriving DecidableEq

/-- Derivation of the tile geometry in `load` (img2img.cpp lines 279–307),
from the engine's input/output tile sizes, `renderConfig.scaling` and
`renderConfig.overlap`.  Note that lines 290–291 compute both components of
`scaledOutputTileSize` from `inputTileSize.width` (a slip that is harmless
for the square tiles every supported engine uses); this is reproduced
faithfully. -/
def loadGeom (inputTileSize outputTileSize scaling : ℤ × ℤ) (overlap : ℚ × ℚ) :
    TileGeom :=
  let scaledOutputTileSize : ℤ × ℤ :=
    (inputTileSize.1 * scaling.1, inputTileSize.1 * scaling.2)
  { inputTileSize := inputTileSize
    scaledInputTileSize :=
      (lroundQ ((outputTileSize.1 : ℚ) / (scaledOutputTileSize.1 : ℚ) * (inputTileSize.1 : ℚ)),
       lroundQ ((outputTileSize.2 : ℚ) / (scaledOutputTileSize.2 : ℚ) * (inputTileSize.2 : ℚ)))
    inputOverlap :=
      (lroundQ ((inputTileSize.1 : ℚ) * overlap.1),
       lroundQ ((inputTileSize.2 : ℚ) * overlap.2))
    outputTileSize := outputTileSize
    scaledOutputOverlap :=
      (lroundQ ((scaledOutputTileSize.1 : ℚ) * overlap.1),
       lroundQ ((scaledOutputTileSize.2 : ℚ) * overlap.2)) }

/-- The tile grid dimensions (`tiling` in img2img.cpp lines 706–709):
per axis, ceil((dimension − overlap) / (scaledInputTileSize − overlap)). -/
def calcTiling (g : TileGeom) (inputRect : Rect) : ℤ × ℤ :=
  (ceilRatio (inputRect.width - g.inputOverlap.1)
      (g.scaledInputTileSize.1 - g.inputOverlap.1),
   ceilRatio (inputRect.height - g.inputOverlap.2)
      (g.scaledInputTileSize.2 - g.inputOverlap.2))

/-- The grid indices (i, j) in the order the nested loops of `calculateTiles`
emit them: i (the x index) in the outer loop, j (the y index) in the inner
loop. -/
def gridIndices (a b : ℕ) : List (ℕ × ℕ) :=
  (List.range a).flatMap fun i => (List.range b).map fun j => (i, j)

/-- The input tile rectangle for grid position (i, j) (img2img.cpp lines
721–726): origin −((inputTileSize − scaledInputTileSize) / 2) (C++ integer
division, i.e. truncation toward zero) plus i·scaledInputTileSize minus
i·inputOverlap, with the full fixed input tile size. -/
def inputRectOf (g : TileGeom) (i j : ℤ) : Rect :=
  { x := -((g.inputTileSize.1 - g.scaledInputTileSize.1).tdiv 2)
        + i * g.scaledInputTileSize.1 - i * g.inputOverlap.1
    y := -((g.inputTileSize.2 - g.scaledInputTileSize.2).tdiv 2)
        + j * g.scaledInputTileSize.2 - j * g.inputOverlap.2
    width := g.inputTileSize.1
    height := g.inputTileSize.2 }

/-- The output tile rectangle for grid position (i, j) (img2img.cpp lines
728–736): origin i·outputTileSize − i·scaledOutputOverlap, width/height
clipped to the output canvas when the unclipped tile would exceed it. -/
def outputRectOf (g : TileGeom) (outputRect : Rect) (i j : ℤ) : Rect :=
  let x := i * g.outputTileSize.1 - i * g.scaledOutputOverlap.1
  let y := j * g.outputTileSize.2 - j * g.scaledOutputOverlap.2
  { x := x
    y := y
    width := if x + g.outputTileSize.1 > outputRect.width
        then outputRect.width - x else g.outputTileSize.1
    height := if y + g.outputTileSize.2 > outputRect.height
        then outputRect.height - y else g.outputTileSize.2 }

/-- `trt::Img2Img::calculateTiles` (img2img.cpp lines 704–741): the tile
count tiling.x · tiling.y and the two rectangle lists in loop order. -/
def calculateTiles (g : TileGeom) (inputRect outputRect : Rect) :
    ℤ × List Rect × List Rect :=
  let tiling := calcTiling g inputRect
  (tiling.1 * tiling.2,
   (gridIndices tiling.1.toNat tiling.2.toNat).map fun p =>
      inputRectOf g (p.1 : ℤ) (p.2 : ℤ),
   (gridIndices tiling.1.toNat tiling.2.toNat).map fun p =>
      outputRectOf g outputRect (p.1 : ℤ) (p.2 : ℤ))

theorem lroundQ_intCast (n : ℤ) : lroundQ (n : ℚ) = n := by
  unfold lroundQ
  have h1 : ⌊(n : ℚ) + 1 / 2⌋ = n := by
    rw [Int.floor_eq_iff]
    constructor <;> push_cast <;> linarith
  have h2 : ⌊-(n : ℚ) + 1 / 2⌋ = -n := by
    rw [Int.floor_eq_iff]
    constructor <;> push_cast <;> linarith
  rcases le_or_lt 0 ((n : ℚ)) with h | h
  · rw [if_pos h, h1]
  · rw [if_neg (not_le.mpr h), h2, neg_neg]

theorem gridIndices_length (a b : ℕ) : (gridIndices a b).length = a * b := by
  induction a with
  | zero => simp [gridIndices]
  | succ a ih =>
    unfold gridIndices at ih ⊢
    rw [List.range_succ, List.flatMap_append, List.length_append, ih]
    simp [Nat.succ_mul]

theorem gridIndices_mem (a b : ℕ) (p : ℕ × ℕ) :
    p ∈ gridIndices a b ↔ p.1 < a ∧ p.2 < b := by
  unfold gridIndices
  rcases p with ⟨i, j⟩
  simp [List.mem_flatMap]

theorem ceilRatio_eval (a b q : ℤ) (hb : 0 < b)
    (h1 : b * (q - 1) < a) (h2 : a ≤ b * q) : ceilRatio a b = q := by
  unfold ceilRatio
  have hbq : (0 : ℚ) < (b : ℚ) := by exact_mod_cast hb
  rw [Int.ceil_eq_iff]
  constructor
  · rw [lt_div_iff₀ hbq]
    have hc : (((b * (q - 1) : ℤ)) : ℚ) < ((a : ℤ) : ℚ) := by exact_mod_cast h1
    push_cast at hc
    linarith
  · rw [div_le_iff₀ hbq]
    have hc : (a : ℚ) ≤ ((b : ℚ)) * ((q : ℚ)) := by exact_mod_cast h2
    linarith

theorem ceilRatio_exact (a b q : ℤ) (hb : b ≠ 0) (h : a = b * q) :
    ceilRatio a b = q := by
  unfold ceilRatio
  have hbq : (b : ℚ) ≠ 0 := by exact_mod_cast hb
  rw [h]
  push_cast
  rw [mul_comm, mul_div_assoc, div_self hbq, mul_one, Int.ceil_intCast]

theorem ceilRatio_mul_left (s a b : ℤ) (hs : s ≠ 0) :
    ceilRatio (s * a) (s * b) = ceilRatio a b := by
  unfold ceilRatio
  have hsq : ((s : ℚ)) ≠ 0 := by exact_mod_cast hs
  push_cast
  rw [mul_div_mul_left _ _ hsq]

theorem nonfinal_tile_fits (W ov ts s i : ℤ) (hs : 0 < s) (hst : ov < ts)
    (hi : i + 1 < ceilRatio (W - ov) (ts - ov)) :
    i * (s * ts) - i * (s * ov) + s * ts ≤ s * W := by
  have hts : (0 : ℚ) < (((ts - ov : ℤ)) : ℚ) := by
    exact_mod_cast sub_pos.mpr hst
  have hceil : ((ceilRatio (W - ov) (ts - ov) : ℤ) : ℚ) <
      (((W - ov : ℤ)) : ℚ) / (((ts - ov : ℤ)) : ℚ) + 1 := by
    unfold ceilRatio
    exact Int.ceil_lt_add_one _
  have hi1 : ((i : ℚ)) + 1 + 1 ≤ ((ceilRatio (W - ov) (ts - ov) : ℤ) : ℚ) := by
    exact_mod_cast hi
  have h3 : ((i : ℚ)) + 1 < (((W - ov : ℤ)) : ℚ) / (((ts - ov : ℤ)) : ℚ) := by
    linarith
  rw [lt_div_iff₀ hts] at h3
  have h4 : (i + 1) * (ts - ov) < W - ov := by exact_mod_cast h3
  have h5 : i * ts - i * ov + ts ≤ W := by nlinarith [h4]
  calc i * (s * ts) - i * (s * ov) + s * ts = s * (i * ts - i * ov + ts) := by ring
  _ ≤ s * W := mul_le_mul_of_nonneg_left h5 hs.le

/-- C4: for every input/output size and valid configuration (positive stride
along both axes, and output geometry that is the input geometry scaled
exactly by the per-axis factors s and t), `calculateTiles` produces
countX × countY tiles where the count along each axis is
ceil((dimension − overlap) / (tileSize − overlap)) — on the input side by the
code's own formula, and equally on the output side; every input rectangle
keeps the full fixed input tile size; every output rectangle has origin
(i·outputTileSize − i·outputOverlap, j·outputTileSize − j·outputOverlap), its
width/height is clipped to the canvas boundary exactly when the unclipped
tile would exceed it, and a tile that is not in the final column (row) is
never clipped, so only final row/column tiles get a narrower/shorter output
rectangle. -/
theorem calculateTiles_geometry (g : TileGeom) (inR outR : Rect) (s t : ℤ)
    (hs : 0 < s) (ht : 0 < t)
    (hstx : g.inputOverlap.1 < g.scaledInputTileSize.1)
    (hsty : g.inputOverlap.2 < g.scaledInputTileSize.2)
    (hox : g.outputTileSize.1 = s * g.scaledInputTileSize.1)
    (hoy : g.outputTileSize.2 = t * g.scaledInputTileSize.2)
    (hsox : g.scaledOutputOverlap.1 = s * g.inputOverlap.1)
    (hsoy : g.scaledOutputOverlap.2 = t * g.inputOverlap.2)
    (hW : outR.width = s * inR.width)
    (hH : outR.height = t * inR.height) :
    (calculateTiles g inR outR).1 = (calcTiling g inR).1 * (calcTiling g inR).2 ∧
    (calcTiling g inR).1 = ceilRatio (inR.width - g.inputOverlap.1)
        (g.scaledInputTileSize.1 - g.inputOverlap.1) ∧
    (calcTiling g inR).2 = ceilRatio (inR.height - g.inputOverlap.2)
        (g.scaledInputTileSize.2 - g.inputOverlap.2) ∧
    (calcTiling g inR).1 = ceilRatio (outR.width - g.scaledOutputOverlap.1)
        (g.outputTileSize.1 - g.scaledOutputOverlap.1) ∧
    (calcTiling g inR).2 = ceilRatio (outR.height - g.scaledOutputOverlap.2)
        (g.outputTileSize.2 - g.scaledOutputOverlap.2) ∧
    (calculateTiles g inR outR).2.1.length
      = (calcTiling g inR).1.toNat * (calcTiling g inR).2.toNat ∧
    (calculateTiles g inR outR).2.2.length
      = (calcTiling g inR).1.toNat * (calcTiling g inR).2.toNat ∧
    (∀ r ∈ (calculateTiles g inR outR).2.1,
      r.width = g.inputTileSize.1 ∧ r.height = g.inputTileSize.2) ∧
    (∀ i j : ℕ, (i : ℤ) < (calcTiling g inR).1 → (j : ℤ) < (calcTiling g inR).2 →
      outputRectOf g outR (i : ℤ) (j : ℤ) ∈ (calculateTiles g inR outR).2.2 ∧
      (outputRectOf g outR (i : ℤ) (j : ℤ)).x
        = (i : ℤ) * g.outputTileSize.1 - (i : ℤ) * g.scaledOutputOverlap.1 ∧
      (outputRectOf g outR (i : ℤ) (j : ℤ)).y
        = (j : ℤ) * g.outputTileSize.2 - (j : ℤ) * g.scaledOutputOverlap.2 ∧
      ((outputRectOf g outR (i : ℤ) (j : ℤ)).x + g.outputTileSize.1 ≤ outR.width →
        (outputRectOf g outR (i : ℤ) (j : ℤ)).width = g.outputTileSize.1) ∧
      (outR.width < (outputRectOf g outR (i : ℤ) (j : ℤ)).x + g.outputTileSize.1 →
        (outputRectOf g outR (i : ℤ) (j : ℤ)).width
          = outR.width - (outputRectOf g outR (i : ℤ) (j : ℤ)).x) ∧
      ((outputRectOf g outR (i : ℤ) (j : ℤ)).y + g.outputTileSize.2 ≤ outR.height →
        (outputRectOf g outR (i : ℤ) (j : ℤ)).height = g.outputTileSize.2) ∧
      (outR.height < (outputRectOf g outR (i : ℤ) (j : ℤ)).y + g.outputTileSize.2 →
        (outputRectOf g outR (i : ℤ) (j : ℤ)).height
          = outR.height - (outputRectOf g outR (i : ℤ) (j : ℤ)).y) ∧
      ((i : ℤ) + 1 < (calcTiling g inR).1 →
        (outputRectOf g outR (i : ℤ) (j : ℤ)).width = g.outputTileSize.1) ∧
      ((j : ℤ) + 1 < (calcTiling g inR).2 →
        (outputRectOf g outR (i : ℤ) (j : ℤ)).height = g.outputTileSize.2)) := by
  refine ⟨rfl, rfl, rfl, ?_, ?_, ?_, ?_, ?_, ?_⟩
  · have e1 : outR.width - g.scaledOutputOverlap.1
        = s * (inR.width - g.inputOverlap.1) := by rw [hW, hsox]; ring
    have e2 : g.outputTileSize.1 - g.scaledOutputOverlap.1
        = s * (g.scaledInputTileSize.1 - g.inputOverlap.1) := by rw [hox, hsox]; ring
    rw [e1, e2, ceilRatio_mul_left _ _ _ (ne_of_gt hs)]
    rfl
  · have e1 : outR.height - g.scaledOutputOverlap.2
        = t * (inR.height - g.inputOverlap.2) := by rw [hH, hsoy]; ring
    have e2 : g.outputTileSize.2 - g.scaledOutputOverlap.2
        = t * (g.scaledInputTileSize.2 - g.inputOverlap.2) := by rw [hoy, hsoy]; ring
    rw [e1, e2, ceilRatio_mul_left _ _ _ (ne_of_gt ht)]
    rfl
  · simp [calculateTiles, gridIndices_length]
  · simp [calculateTiles, gridIndices_length]
  · intro r hr
    simp only [calculateTiles, List.mem_map] at hr
    obtain ⟨p, _, rfl⟩ := hr
    exact ⟨rfl, rfl⟩
  · intro i j hi hj
    refine ⟨?_, rfl, rfl, ?_, ?_, ?_, ?_, ?_, ?_⟩
    · simp only [calculateTiles, List.mem_map]
      exact ⟨(i, j), (gridIndices_mem _ _ _).mpr
        ⟨Int.lt_toNat.mpr hi, Int.lt_toNat.mpr hj⟩, rfl⟩
    · intro h
      simp only [outputRectOf] at h ⊢
      rw [if_neg (not_lt.mpr h)]
    · intro h
      simp only [outputRectOf] at h ⊢
      rw [if_pos h]
    · intro h
      simp only [outputRectOf] at h ⊢
      rw [if_neg (not_lt.mpr h)]
    · intro h
      simp only [outputRectOf] at h ⊢
      rw [if_pos h]
    · intro h
      have hfit := nonfinal_tile_fits inR.width g.inputOverlap.1
        g.scaledInputTileSize.1 s (i : ℤ) hs hstx h
      simp only [outputRectOf]
      rw [if_neg]
      rw [not_lt, hox, hsox, hW]
      exact hfit
    · intro h
      have hfit := nonfinal_tile_fits inR.height g.inputOverlap.2
        g.scaledInputTileSize.2 t (j : ℤ) ht hsty h
      simp only [outputRectOf]
      rw [if_neg]
      rw [not_lt, hoy, hsoy, hH]
      exact hfit

/-- Witness for C4 at the concrete geometry of the 640×640 scenario: input
tile 256, scaled input tile 256, input overlap 16, output tile 512, output
overlap 32, scale factor 2 per axis. -/
theorem calculateTiles_geometry_witness :
    ((0 : ℤ) < 2 ∧ (16 : ℤ) < 256 ∧ (1280 : ℤ) = 2 * 640) ∧
      (∀ r ∈ (calculateTiles ⟨(256, 256), (256, 256), (16, 16), (512, 512), (32, 32)⟩
          ⟨0, 0, 640, 640⟩ ⟨0, 0, 1280, 1280⟩).2.1,
        r.width = 256 ∧ r.height = 256) := by
  refine ⟨⟨by norm_num, by norm_num, by norm_num⟩, ?_⟩
  exact (calculateTiles_geometry
    ⟨(256, 256), (256, 256), (16, 16), (512, 512), (32, 32)⟩
    ⟨0, 0, 640, 640⟩ ⟨0, 0, 1280, 1280⟩ 2 2
    (by norm_num) (by norm_num) (by decide) (by decide) (by decide) (by decide)
    (by decide) (by decide) (by decide) (by decide)).2.2.2.2.2.2.2.1

/-- Output canvas allocation of `trt::Img2Img::render` (img2img.cpp line
335): `output.create(input.rows * scaling.x, input.cols * scaling.y, ...)`,
whose first argument is the row count — so scaling.x multiplies the rows and
scaling.y the columns.  Returns (rows, cols). -/
def renderOutputSize (inputRows inputCols scalingX scalingY : ℤ) : ℤ × ℤ :=
  (inputRows * scalingX, inputCols * scalingY)

theorem lroundQ_eval (q : ℚ) (n : ℤ) (h : q = (n : ℚ)) : lroundQ q = n :=
  h ▸ lroundQ_intCast n

/-- The tile geometry `load` derives in the C5 scenario: engine input tile
256×256, engine output tile 512×512, scale factor 2, overlap fraction
1/16. -/
def scenarioGeom : TileGeom := loadGeom (256, 256) (512, 512) (2, 2) (1 / 16, 1 / 16)

theorem scenarioGeom_eq :
    scenarioGeom = ⟨(256, 256), (256, 256), (16, 16), (512, 512), (32, 32)⟩ := by
  unfold scenarioGeom loadGeom
  simp only [TileGeom.mk.injEq, Prod.mk.injEq]
  and_intros <;> first
  | trivial
  | exact lroundQ_eval _ _ (by push_cast; norm_num)

theorem ceilRatio_624_240 : ceilRatio 624 240 = 3 :=
  ceilRatio_eval 624 240 3 (by norm_num) (by norm_num) (by norm_num)

/-- Counterexample to C5: in the stated scenario (640×640 input, scale 2,
input tile 256×256, output tile 512×512, overlap fraction 1/16) the planner
produces 9 tiles, not 4: a 256-pixel input tile with 16 pixels of input
overlap strides 240 pixels, and ceil((640 − 16) / 240) = 3 per axis. -/
theorem scenario_produces_nine_tiles :
    (calculateTiles scenarioGeom ⟨0, 0, 640, 640⟩ ⟨0, 0, 1280, 1280⟩).1 = 9 ∧
      (9 : ℤ) ≠ 4 := by
  constructor
  · rw [scenarioGeom_eq]
    show ceilRatio (640 - 16) (256 - 16) * ceilRatio (640 - 16) (256 - 16) = 9
    norm_num [ceilRatio_624_240]
  · decide

theorem scenario_outs_eq :
    (calculateTiles scenarioGeom ⟨0, 0, 640, 640⟩ ⟨0, 0, 1280, 1280⟩).2.2 =
      [⟨0, 0, 512, 512⟩, ⟨0, 480, 512, 512⟩, ⟨0, 960, 512, 320⟩,
       ⟨480, 0, 512, 512⟩, ⟨480, 480, 512, 512⟩, ⟨480, 960, 512, 320⟩,
       ⟨960, 0, 320, 512⟩, ⟨960, 480, 320, 512⟩, ⟨960, 960, 320, 320⟩] := by
  rw [scenarioGeom_eq]
  have h : calcTiling ⟨(256, 256), (256, 256), (16, 16), (512, 512), (32, 32)⟩
      ⟨0, 0, 640, 640⟩ = (3, 3) := by
    simp only [calcTiling]
    norm_num [ceilRatio_624_240]
  simp only [calculateTiles, h]
  decide

/-- C5 amended: in the stated scenario (640×640 input, scale factor 2, fixed
input tile 256×256 / output tile 512×512, overlap fraction 1/16) the planner
produces exactly 9 tiles in a 3×3 grid (not 4 in a 2×2 grid: the 256-pixel
input tile with 16 pixels of overlap strides 240 pixels and
ceil((640 − 16)/240) = 3 per axis), the output canvas is 1280×1280, the nine
output rectangles together cover the canvas exactly, and horizontally or
vertically adjacent tiles share a nonzero 32-pixel overlap band (the second
column starts at 480 while the first ends at 512) where the weight ramps
apply. -/
theorem scenario_planner_corrected :
    (calculateTiles scenarioGeom ⟨0, 0, 640, 640⟩ ⟨0, 0, 1280, 1280⟩).1 = 9 ∧
    calcTiling scenarioGeom ⟨0, 0, 640, 640⟩ = (3, 3) ∧
    renderOutputSize 640 640 2 2 = (1280, 1280) ∧
    (calculateTiles scenarioGeom ⟨0, 0, 640, 640⟩ ⟨0, 0, 1280, 1280⟩).2.2 =
      [⟨0, 0, 512, 512⟩, ⟨0, 480, 512, 512⟩, ⟨0, 960, 512, 320⟩,
       ⟨480, 0, 512, 512⟩, ⟨480, 480, 512, 512⟩, ⟨480, 960, 512, 320⟩,
       ⟨960, 0, 320, 512⟩, ⟨960, 480, 320, 512⟩, ⟨960, 960, 320, 320⟩] ∧
    (∀ gx gy : ℤ, 0 ≤ gx → gx < 1280 → 0 ≤ gy → gy < 1280 →
      ∃ r ∈ (calculateTiles scenarioGeom ⟨0, 0, 640, 640⟩ ⟨0, 0, 1280, 1280⟩).2.2,
        r.x ≤ gx ∧ gx < r.x + r.width ∧ r.y ≤ gy ∧ gy < r.y + r.height) ∧
    ((0 : ℤ) < 32 ∧ (480 : ℤ) + 32 = 512) := by
  refine ⟨?_, ?_, by decide, scenario_outs_eq, ?_, by norm_num, by norm_num⟩
  · rw [scenarioGeom_eq]
    show ceilRatio (640 - 16) (256 - 16) * ceilRatio (640 - 16) (256 - 16) = 9
    norm_num [ceilRatio_624_240]
  · rw [scenarioGeom_eq]
    simp only [calcTiling]
    norm_num [ceilRatio_624_240]
  · intro gx gy hx0 hx1 hy0 hy1
    rw [scenario_outs_eq]
    by_cases hx : gx < 512
    · by_cases hy : gy < 512
      · refine ⟨⟨0, 0, 512, 512⟩, by simp, ?_, ?_, ?_, ?_⟩ <;> dsimp only <;> omega
      · by_cases hy2 : gy < 992
        · refine ⟨⟨0, 480, 512, 512⟩, by simp, ?_, ?_, ?_, ?_⟩ <;> dsimp only <;> omega
        · refine ⟨⟨0, 960, 512, 320⟩, by simp, ?_, ?_, ?_, ?_⟩ <;> dsimp only <;> omega
    · by_cases hx2 : gx < 992
      · by_cases hy : gy < 512
        · refine ⟨⟨480, 0, 512, 512⟩, by simp, ?_, ?_, ?_, ?_⟩ <;> dsimp only <;> omega
        · by_cases hy2 : gy < 992
          · refine ⟨⟨480, 480, 512, 512⟩, by simp, ?_, ?_, ?_, ?_⟩ <;> dsimp only <;> omega
          · refine ⟨⟨480, 960, 512, 320⟩, by simp, ?_, ?_, ?_, ?_⟩ <;> dsimp only <;> omega
      · by_cases hy : gy < 512
        · refine ⟨⟨960, 0, 320, 512⟩, by simp, ?_, ?_, ?_, ?_⟩ <;> dsimp only <;> omega
        · by_cases hy2 : gy < 992
          · refine ⟨⟨960, 480, 320, 512⟩, by simp, ?_, ?_, ?_, ?_⟩ <;> dsimp only <;> omega
          · refine ⟨⟨960, 960, 320, 320⟩, by simp, ?_, ?_, ?_, ?_⟩ <;> dsimp only <;> omega

/-- Witness for the coverage quantifier of the amended C5 at the concrete
canvas point (600, 600). -/
theorem scenario_planner_corrected_witness :
    ((0 : ℤ) ≤ 600 ∧ (600 : ℤ) < 1280) ∧
      ∃ r ∈ (calculateTiles scenarioGeom ⟨0, 0, 640, 640⟩ ⟨0, 0, 1280, 1280⟩).2.2,
        r.x ≤ 600 ∧ 600 < r.x + r.width ∧ r.y ≤ 600 ∧ 600 < r.y + r.height :=
  ⟨⟨by norm_num, by norm_num⟩,
    scenario_planner_corrected.2.2.2.2.1 600 600 (by norm_num) (by norm_num)
      (by norm_num) (by norm_num)⟩

/-- The tile geometry `load` derives from an out-of-range overlap fraction of
3/2 with a scale-1 engine and 256-pixel tiles: the input overlap becomes 384,
larger than the 256-pixel scaled input tile, so the effective stride is
−128. -/
def invalidStrideGeom : TileGeom := loadGeom (256, 256) (256, 256) (1, 1) (3 / 2, 3 / 2)

theorem invalidStrideGeom_eq :
    invalidStrideGeom
      = ⟨(256, 256), (256, 256), (384, 384), (256, 256), (384, 384)⟩ := by
  unfold invalidStrideGeom loadGeom
  simp only [TileGeom.mk.injEq, Prod.mk.injEq]
  and_intros <;> first
  | trivial
  | exact lroundQ_eval _ _ (by push_cast; norm_num)

/-- C8: the code performs no stride validation at all.  With the geometry
above the effective stride is 256 − 384 = −128 ≤ 0, yet `calculateTiles`
neither fails nor signals any configuration error: it computes
ceil((640 − 384) / (−128)) = −2 per axis and returns normally with the bogus
tile count (−2)·(−2) = 4 and two empty rectangle lists (its return type has
no error outcome whatever — there is no fail-fast path in img2img.cpp for a
non-positive stride, contradicting the spec's ConfigurationError
requirement). -/
theorem no_fail_fast_on_nonpositive_stride :
    calculateTiles invalidStrideGeom ⟨0, 0, 640, 640⟩ ⟨0, 0, 640, 640⟩
      = (4, [], []) := by
  rw [invalidStrideGeom_eq]
  have h : calcTiling ⟨(256, 256), (256, 256), (384, 384), (256, 256), (384, 384)⟩
      ⟨0, 0, 640, 640⟩ = (-2, -2) := by
    simp only [calcTiling]
    norm_num [ceilRatio_exact 256 (-128) (-2) (by norm_num) (by norm_num)]
  simp only [calculateTiles, h]
  decide

/-! ### Batch scheduling and the postprocess drain

The render loop (img2img.cpp lines 361–439) pushes one (tileIndex,
augmentationIndex) pair onto the FIFO `tileIndices` per step and, whenever
`batchIndex = stepIndex % batchSize` reaches batchSize − 1, calls `infer`
once on the batch and runs the postprocess loop of lines 396–430.  That loop
iterates at most batchSize times, reads the FIFO front, and — before popping
— breaks out as soon as the front entry's tileIndex equals tileCount (a
padding entry).  Real entries are popped and composited. -/

/-- `batchIndex` of a step (img2img.cpp line 367); `infer` runs exactly at
the steps where this equals batchSize − 1 (line 385). -/
def batchIndexOf (stepIndex batchSize : ℕ) : ℕ := stepIndex % batchSize

/-- The postprocess drain loop of img2img.cpp lines 396–430 applied to the
FIFO: at most `b` (= batchSize) iterations; the front entry is inspected and,
if its tileIndex equals `tileCount`, the loop breaks without popping;
otherwise the entry is popped and processed.  Returns (processed entries in
order, remaining queue). -/
def drainBatch (tileCount : ℕ) : ℕ → List (ℕ × ℕ) → List (ℕ × ℕ) × List (ℕ × ℕ)
  | 0, q => ([], q)
  | _ + 1, [] => ([], [])
  | b + 1, e :: rest =>
      if e.1 = tileCount then ([], e :: rest)
      else
        let p := drainBatch tileCount b rest
        (e :: p.1, p.2)

theorem drainBatch_length_le (T : ℕ) :
    ∀ (b : ℕ) (q : List (ℕ × ℕ)), (drainBatch T b q).1.length ≤ b := by
  intro b
  induction b with
  | zero =>
    intro q
    simp [drainBatch]
  | succ b ih =>
    intro q
    cases q with
    | nil => simp [drainBatch]
    | cons e rest =>
      simp only [drainBatch]
      by_cases h : e.1 = T
      · rw [if_pos h]
        simp
      · rw [if_neg h]
        simpa using ih rest

theorem drainBatch_mem (T : ℕ) :
    ∀ (b : ℕ) (q : List (ℕ × ℕ)), ∀ e ∈ (drainBatch T b q).1, e ∈ q := by
  intro b
  induction b with
  | zero =>
    intro q e he
    simp [drainBatch] at he
  | succ b ih =>
    intro q e he
    cases q with
    | nil => simp [drainBatch] at he
    | cons f rest =>
      simp only [drainBatch] at he
      by_cases h : f.1 = T
      · rw [if_pos h] at he
        simp at he
      · rw [if_neg h] at he
        simp only [List.mem_cons] at he ⊢
        rcases he with he | he
        · exact Or.inl he
        · exact Or.inr (ih rest e he)

theorem drainBatch_no_padding (T : ℕ) :
    ∀ (b : ℕ) (q : List (ℕ × ℕ)), ∀ e ∈ (drainBatch T b q).1, e.1 ≠ T := by
  intro b
  induction b with
  | zero =>
    intro q e he
    simp [drainBatch] at he
  | succ b ih =>
    intro q e he
    cases q with
    | nil => simp [drainBatch] at he
    | cons f rest =>
      simp only [drainBatch] at he
      by_cases h : f.1 = T
      · rw [if_pos h] at he
        simp at he
      · rw [if_neg h] at he
        simp only [List.mem_cons] at he
        rcases he with rfl | he
        · exact h
        · exact ih rest e he

theorem drainBatch_full (T : ℕ) :
    ∀ (b : ℕ) (q : List (ℕ × ℕ)), (∀ e ∈ q.take b, e.1 ≠ T) →
      (drainBatch T b q).1 = q.take b := by
  intro b
  induction b with
  | zero =>
    intro q _
    simp [drainBatch]
  | succ b ih =>
    intro q hq
    cases q with
    | nil => simp [drainBatch]
    | cons f rest =>
      simp only [drainBatch, List.take_succ_cons]
      rw [if_neg (hq f (by simp))]
      simp only [List.cons.injEq, true_and]
      exact ih rest fun e he => hq e (by simp [he])

/-- C6 counterexample: with tileCount = 1, batchSize = 2 and augmentation
disabled, the final (only) batch consists of the real work item (0, 0) and
the padding item (1, 0); the FIFO at drain time is [(0, 0), (1, 0)].  The
drain loop pops the single real entry and then breaks on the padding entry
without popping it: it drains 1 entry, not exactly batchSize = 2 as the
claim states (the padding entry is discarded by ending the loop, not by
being drained). -/
theorem drain_fewer_than_batchSize :
    drainBatch 1 2 [(0, 0), (1, 0)] = ([(0, 0)], [(1, 0)]) ∧
      (drainBatch 1 2 [(0, 0), (1, 0)]).1.length = 1 ∧ (1 : ℕ) ≠ 2 := by
  refine ⟨?_, ?_, by decide⟩ <;> rfl

/-- C6 amended: whenever the batch slot reaches batchSize − 1 the pipeline
invokes `infer` exactly once on the full batch — within every window of
batchSize consecutive steps exactly one step s satisfies the trigger
condition stepIndex % batchSize = batchSize − 1, namely the last one — and
then drains FIFO entries until either batchSize entries have been drained or
the entry at the front is a padding entry (tileIndex = tileCount), which
stops the drain early; every drained entry is a real entry (tileIndex <
tileCount, given that the FIFO only holds tile indices ≤ tileCount), drained
entries form the corresponding prefix of the FIFO, and a batch whose first
batchSize queued entries are all real drains exactly batchSize entries — so
no padding entry is ever composited into the output canvas. -/
theorem batch_drain_characterization :
    (∀ b c s : ℕ, 0 < b →
      (batchIndexOf s b = b - 1 ∧ s < c * b ↔ ∃ m, m < c ∧ s = m * b + (b - 1))) ∧
    (∀ (T b : ℕ) (q : List (ℕ × ℕ)), (drainBatch T b q).1.length ≤ b) ∧
    (∀ (T b : ℕ) (q : List (ℕ × ℕ)), ∀ e ∈ (drainBatch T b q).1, e ∈ q ∧ e.1 ≠ T) ∧
    (∀ (T b : ℕ) (q : List (ℕ × ℕ)), (∀ e ∈ q.take b, e.1 ≠ T) →
      (drainBatch T b q).1 = q.take b) ∧
    (∀ (T b : ℕ) (q : List (ℕ × ℕ)), (∀ e ∈ q, e.1 ≤ T) →
      ∀ e ∈ (drainBatch T b q).1, e.1 < T) := by
  refine ⟨?_, drainBatch_length_le, ?_, drainBatch_full, ?_⟩
  · intro b c s hb
    constructor
    · rintro ⟨h1, h2⟩
      refine ⟨s / b, (Nat.div_lt_iff_lt_mul hb).mpr h2, ?_⟩
      conv_lhs => rw [← Nat.div_add_mod s b]
      rw [batchIndexOf] at h1
      rw [h1, Nat.mul_comm]
    · rintro ⟨m, hm, rfl⟩
      constructor
      · rw [batchIndexOf, Nat.add_comm, Nat.add_mul_mod_self_right]
        exact Nat.mod_eq_of_lt (by omega)
      · calc m * b + (b - 1) < m * b + b := by omega
        _ = (m + 1) * b := by ring
        _ ≤ c * b := Nat.mul_le_mul_right b (Nat.succ_le_of_lt hm)
  · intro T b q e he
    exact ⟨drainBatch_mem T b q e he, drainBatch_no_padding T b q e he⟩
  · intro T b q hq e he
    exact lt_of_le_of_ne (hq e (drainBatch_mem T b q e he))
      (drainBatch_no_padding T b q e he)

/-- Witness for C6 (amended): the trigger condition at batchSize 2, 3
batches, step 3, and a full drain of a batch of two real entries. -/
theorem batch_drain_characterization_witness :
    ((0 : ℕ) < 2 ∧ batchIndexOf 3 2 = 2 - 1 ∧ 3 < 3 * 2) ∧
      (drainBatch 5 2 [(0, 0), (1, 0), (2, 0)]).1 = [(0, 0), (1, 0), (2, 0)].take 2 :=
  ⟨⟨by decide,
    (batch_drain_characterization.1 2 3 3 (by decide)).mpr ⟨1, by decide, by decide⟩⟩,
   batch_drain_characterization.2.2.2.1 5 2 [(0, 0), (1, 0), (2, 0)] (by decide)⟩

/-! ### Edge-padded tile extraction

`trt::Img2Img::padRoi` (img2img.cpp lines 539–576).  A GPU image is a
width × height matrix; the model carries the dimensions and a total value
function (only indices inside the bounds are ever read). -/

structure MatZ where
  width : ℤ
  height : ℤ
  val : ℤ → ℤ → ℚ

/-- Sub-matrix view `input(cv::Rect2i(r.x, r.y, r.width, r.height))`. -/
def subMat (m : MatZ) (r : Rect) : MatZ :=
  ⟨r.width, r.height, fun X Y => m.val (r.x + X) (r.y + Y)⟩

/-- `cv::cuda::copyMakeBorder(src, dst, top, bottom, left, right,
cv::BORDER_REPLICATE)`: the destination grows by the four margins and every
destination pixel reads the source at the coordinate clamped into the source
bounds, i.e. missing borders replicate the nearest edge pixel. -/
def copyMakeBorderReplicate (src : MatZ) (top bottom left right : ℤ) : MatZ :=
  ⟨left + src.width + right, top + src.height + bottom,
   fun X Y => src.val (max 0 (min (X - left) (src.width - 1)))
                      (max 0 (min (Y - top) (src.height - 1)))⟩

/-- Margin `left` of padRoi (set when tl_x < 0, img2img.cpp lines 550–554). -/
def padLeft (roi : Rect) : ℤ := if roi.x < 0 then -roi.x else 0

/-- Margin `top` of padRoi (lines 555–559). -/
def padTop (roi : Rect) : ℤ := if roi.y < 0 then -roi.y else 0

/-- Margin `right` of padRoi (set when br_x > input.cols, lines 560–563). -/
def padRight (input : MatZ) (roi : Rect) : ℤ :=
  if roi.x + roi.width > input.width then roi.x + roi.width - input.width else 0

/-- Margin `bottom` of padRoi (lines 564–567). -/
def padBottom (input : MatZ) (roi : Rect) : ℤ :=
  if roi.y + roi.height > input.height then roi.y + roi.height - input.height else 0

/-- Clipped top-left x (`tl_x` after the adjustments). -/
def clipX (roi : Rect) : ℤ := if roi.x < 0 then 0 else roi.x

/-- Clipped top-left y (`tl_y` after the adjustments). -/
def clipY (roi : Rect) : ℤ := if roi.y < 0 then 0 else roi.y

/-- Clipped width (`width` after `width += tl_x` and `width -= br_x − cols`). -/
def clipW (input : MatZ) (roi : Rect) : ℤ :=
  roi.width - padLeft roi - padRight input roi

/-- Clipped height. -/
def clipH (input : MatZ) (roi : Rect) : ℤ :=
  roi.height - padTop roi - padBottom input roi

/-- `trt::Img2Img::padRoi` (img2img.cpp lines 539–576): if the requested
rectangle sticks out of the image on any side, extract the clipped
intersection and rebuild the requested size with replicate-border padding;
otherwise return the sub-matrix directly.  `none` models the OpenCV
assertion failure (an exception, caught by `render`) that a sub-matrix
request with non-positive width or height raises — it occurs exactly when the
requested rectangle is empty or does not meet the image. -/
def padRoi (input : MatZ) (roi : Rect) : Option MatZ :=
  if roi.x < 0 ∨ roi.y < 0 ∨ roi.x + roi.width > input.width
      ∨ roi.y + roi.height > input.height then
    if clipW input roi ≤ 0 ∨ clipH input roi ≤ 0 then none
    else some (copyMakeBorderReplicate
      (subMat input ⟨clipX roi, clipY roi, clipW input roi, clipH input roi⟩)
      (padTop roi) (padBottom input roi) (padLeft roi) (padRight input roi))
  else
    if roi.width ≤ 0 ∨ roi.height ≤ 0 then none
    else some (subMat input roi)

theorem clamp_axis_x (input : MatZ) (roi : Rect) (X : ℤ)
    (hc : 0 < input.width) (hx : roi.x < input.width) (hxw : 0 < roi.x + roi.width)
    (hX : 0 ≤ X) (hXw : X < roi.width) :
    clipX roi + max 0 (min (X - padLeft roi) (clipW input roi - 1))
      = max 0 (min (roi.x + X) (input.width - 1)) := by
  unfold clipW clipX padLeft padRight
  split_ifs <;> omega

theorem clamp_axis_y (input : MatZ) (roi : Rect) (Y : ℤ)
    (hc : 0 < input.height) (hy : roi.y < input.height) (hyh : 0 < roi.y + roi.height)
    (hY : 0 ≤ Y) (hYh : Y < roi.height) :
    clipY roi + max 0 (min (Y - padTop roi) (clipH input roi - 1))
      = max 0 (min (roi.y + Y) (input.height - 1)) := by
  unfold clipH clipY padTop padBottom
  split_ifs <;> omega

/-- C7 amended: for every nonempty source image and every requested rectangle
of positive size that meets the image — including rectangles with negative
x/y or extending past the image on one or several sides simultaneously — the
extraction returns a tile of exactly the requested width and height whose
pixel (X, Y) is the source pixel at the global coordinate (roi.x + X,
roi.y + Y) clamped into the image, so in-bounds pixels are copied from the
intersection and the missing borders replicate the nearest edge pixel (never
zero-fill); if the rectangle lies fully inside the source the result is
exactly that sub-region.  (A rectangle disjoint from the image makes the
underlying OpenCV sub-matrix extraction throw instead; see the
counterexample.) -/
theorem padRoi_replicates_borders (input : MatZ) (roi : Rect)
    (hw : 0 < roi.width) (hh : 0 < roi.height)
    (hcw : 0 < input.width) (hch : 0 < input.height)
    (hx : roi.x < input.width) (hxw : 0 < roi.x + roi.width)
    (hy : roi.y < input.height) (hyh : 0 < roi.y + roi.height) :
    ∃ t, padRoi input roi = some t ∧
      t.width = roi.width ∧ t.height = roi.height ∧
      (∀ X Y, 0 ≤ X → X < roi.width → 0 ≤ Y → Y < roi.height →
        t.val X Y = input.val (max 0 (min (roi.x + X) (input.width - 1)))
                              (max 0 (min (roi.y + Y) (input.height - 1)))) ∧
      (0 ≤ roi.x → 0 ≤ roi.y → roi.x + roi.width ≤ input.width →
        roi.y + roi.height ≤ input.height →
        ∀ X Y, 0 ≤ X → X < roi.width → 0 ≤ Y → Y < roi.height →
          t.val X Y = input.val (roi.x + X) (roi.y + Y)) := by
  by_cases hb : roi.x < 0 ∨ roi.y < 0 ∨ roi.x + roi.width > input.width
      ∨ roi.y + roi.height > input.height
  · have hcw' : 0 < clipW input roi := by
      unfold clipW padLeft padRight
      split_ifs <;> omega
    have hch' : 0 < clipH input roi := by
      unfold clipH padTop padBottom
      split_ifs <;> omega
    refine ⟨copyMakeBorderReplicate
        (subMat input ⟨clipX roi, clipY roi, clipW input roi, clipH input roi⟩)
        (padTop roi) (padBottom input roi) (padLeft roi) (padRight input roi),
      ?_, ?_, ?_, ?_, ?_⟩
    · unfold padRoi
      rw [if_pos hb, if_neg (by omega)]
    · show padLeft roi + clipW input roi + padRight input roi = roi.width
      unfold clipW
      ring
    · show padTop roi + clipH input roi + padBottom input roi = roi.height
      unfold clipH
      ring
    · intro X Y hX0 hX1 hY0 hY1
      show input.val (clipX roi + max 0 (min (X - padLeft roi) (clipW input roi - 1)))
          (clipY roi + max 0 (min (Y - padTop roi) (clipH input roi - 1))) = _
      rw [clamp_axis_x input roi X hcw hx hxw hX0 hX1,
        clamp_axis_y input roi Y hch hy hyh hY0 hY1]
    · intro h1 h2 h3 h4
      exfalso
      rcases hb with h | h | h | h <;> omega
  · push_neg at hb
    obtain ⟨hx0, hy0, hxw', hyh'⟩ := hb
    refine ⟨subMat input roi, ?_, rfl, rfl, ?_, ?_⟩
    · unfold padRoi
      rw [if_neg (by push_neg; exact ⟨hx0, hy0, hxw', hyh'⟩), if_neg (by omega)]
    · intro X Y hX0 hX1 hY0 hY1
      show input.val (roi.x + X) (roi.y + Y) = _
      rw [show max 0 (min (roi.x + X) (input.width - 1)) = roi.x + X by omega,
        show max 0 (min (roi.y + Y) (input.height - 1)) = roi.y + Y by omega]
    · intro _ _ _ _ X Y hX0 hX1 hY0 hY1
      rfl

/-- Concrete image for the C7 counterexample and witness. -/
def exampleImage : MatZ := ⟨4, 4, fun x y => ((x + y : ℤ) : ℚ)⟩

/-- Counterexample to C7 as universally stated: the rectangle (−10, 0, 4, 4)
has negative x and lies entirely to the left of the 4 × 4 image; the clipped
width is 4 − 10 = −6, the sub-matrix request `input(cv::Rect2i(0, 0, −6, 4))`
fails an OpenCV assertion and the extraction throws (modelled as `none`)
instead of returning a 4 × 4 tile. -/
theorem padRoi_fails_on_disjoint_rect :
    padRoi exampleImage ⟨-10, 0, 4, 4⟩ = none ∧
      ∀ t : MatZ, ¬(padRoi exampleImage ⟨-10, 0, 4, 4⟩ = some t ∧
        t.width = 4 ∧ t.height = 4) := by
  refine ⟨rfl, ?_⟩
  rintro t ⟨h, -⟩
  rw [show padRoi exampleImage ⟨-10, 0, 4, 4⟩ = none from rfl] at h
  cases h

/-- Witness for C7 (amended) at the rectangle (−1, −1, 3, 3) sticking out of
the top-left corner of the 4 × 4 example image. -/
theorem padRoi_replicates_borders_witness :
    ((0 : ℤ) < 3 ∧ (-1 : ℤ) < 4 ∧ (0 : ℤ) < -1 + 3) ∧
      ∃ t, padRoi exampleImage ⟨-1, -1, 3, 3⟩ = some t ∧
        t.width = 3 ∧ t.height = 3 := by
  refine ⟨⟨by norm_num, by norm_num, by norm_num⟩, ?_⟩
  obtain ⟨t, h1, h2, h3, -, -⟩ := padRoi_replicates_borders exampleImage
    ⟨-1, -1, 3, 3⟩ (by decide) (by decide) (by decide) (by decide)
    (by decide) (by decide) (by decide) (by decide)
  exact ⟨t, h1, h2, h3⟩

/-! ### Output canvas dimensions and final pixel format -/

structure PixelFormat where
  bitsPerChannel : ℕ
  channels : ℕ
deriving DecidableEq

/-- The encoding `render` converts the finished canvas to (img2img.cpp line
442: `output.convertTo(output, CV_8UC3, 255.0, stream)`): 8 bits per
channel, 3 channels, matching the 8-bit 3-channel input frames. -/
def renderOutputFormat : PixelFormat := ⟨8, 3⟩

/-- Counterexample to C9 as stated: `output.create(input.rows * scaling.x,
input.cols * scaling.y, ...)` applies the x scale factor to the rows (the
height) and the y scale factor to the columns (the width).  For a 100-row,
200-column input with scaling (x, y) = (2, 3) the code allocates a 200-row,
600-column canvas, while the claim (width = input width × horizontal scale,
height = input height × vertical scale) predicts 300 rows and 400 columns. -/
theorem render_output_size_swaps_axes :
    renderOutputSize 100 200 2 3 = (200, 600) ∧
      ((200 : ℤ), (600 : ℤ)) ≠ ((100 * 3 : ℤ), (200 * 2 : ℤ)) := by
  exact ⟨rfl, by decide⟩

/-- C9 amended: the canvas allocation multiplies the row count by scaling.x
and the column count by scaling.y (the axes are swapped relative to the
claim); whenever the two per-axis factors are equal — which holds for every
recognized configuration, where a single scalar scale factor from {1, 2, 4}
is used for both — the output dimensions are the input dimensions times the
scale factor per axis, and the finished canvas is converted to the 8-bit
3-channel encoding of the input. -/
theorem render_output_dims (rows cols sx sy s : ℤ) :
    renderOutputSize rows cols sx sy = (rows * sx, cols * sy) ∧
    renderOutputSize rows cols s s = (rows * s, cols * s) ∧
    renderOutputFormat = ⟨8, 3⟩ :=
  ⟨rfl, rfl, rfl⟩

/-! ### Failure propagation of render

`trt::Img2Img::render` (img2img.cpp lines 333–451) runs a sequence of
batches; each batch is sent to `infer`, which can fail (its own batch-size /
channel / height / width precondition checks at lines 455–480, an enqueue
failure at line 490, or any thrown exception).  When `infer` fails, render
returns false immediately (lines 389–393) — the remaining batches, the
postprocessing and the finalization at lines 441–444 are all skipped — and
the function-level catch turns any exception into the same immediate false.
The functional model returns the finalized canvas on success and `none` on
failure, so a failed render yields no canvas at all. -/

/-- The batch loop of `render`: process batches in order, abort with `none`
the moment `infer` fails on one of them, otherwise thread the canvas through
the postprocess step. -/
def renderLoop {C B R : Type} (infer : B → Option R) (post : R → C → C) :
    List B → C → Option C
  | [], canvas => some canvas
  | b :: rest, canvas =>
      match infer b with
      | none => none
      | some r => renderLoop infer post rest (post r canvas)

/-- `render`: the batch loop followed by finalization (img2img.cpp lines
441–444), which runs only if every batch succeeded. -/
def render {C B R : Type} (infer : B → Option R) (post : R → C → C)
    (finalize : C → C) (batches : List B) (canvas0 : C) : Option C :=
  (renderLoop infer post batches canvas0).map finalize

theorem renderLoop_none_iff {C B R : Type} (infer : B → Option R)
    (post : R → C → C) :
    ∀ (batches : List B) (canvas0 : C),
      renderLoop infer post batches canvas0 = none ↔ ∃ b ∈ batches, infer b = none := by
  intro batches
  induction batches with
  | nil =>
    intro c0
    simp [renderLoop]
  | cons b rest ih =>
    intro c0
    simp only [renderLoop]
    cases h : infer b with
    | none => simp [h]
    | some r => simp [h, ih]

/-- C10: a render call fails (returns no canvas) exactly when some batch's
executor invocation fails — the failure aborts the call before the remaining
steps and before finalization — and whenever a canvas is returned, every
executor invocation succeeded, so a partially filled canvas is never
surfaced as a result to the caller. -/
theorem render_aborts_on_failure {C B R : Type} (infer : B → Option R)
    (post : R → C → C) (finalize : C → C) (batches : List B) (canvas0 : C) :
    (render infer post finalize batches canvas0 = none ↔
      ∃ b ∈ batches, infer b = none) ∧
    (∀ c, render infer post finalize batches canvas0 = some c →
      ∀ b ∈ batches, infer b ≠ none) := by
  constructor
  · rw [render, Option.map_eq_none']
    exact renderLoop_none_iff infer post batches canvas0
  · intro c hc b hb hfail
    have hnone : render infer post finalize batches canvas0 = none := by
      rw [render, Option.map_eq_none']
      exact (renderLoop_none_iff infer post batches canvas0).mpr ⟨b, hb, hfail⟩
    rw [hc] at hnone
    cases hnone

/-- Witness for C10: a one-batch render whose executor fails yields no
canvas. -/
theorem render_aborts_on_failure_witness :
    render (fun _ : ℕ => (none : Option ℕ)) (fun _ c => c) id [0] (0 : ℕ) = none :=
  (render_aborts_on_failure (fun _ : ℕ => (none : Option ℕ)) (fun _ c => c) id
    [0] 0).1.mpr ⟨0, by simp, rfl⟩

end Img2Img
